import Mathlib

/-!
Verification development for the BCMR authchain resolution tool.

The definitions below are a shallow embedding of the TypeScript sources:
`src/lib/bcmr.ts` (authchain resolver, batch orchestrator),
`src/lib/fulcrum-client.ts` (spend-query client, connection pool),
`src/lib/authchain-cache.ts` (persistent cache), and `src/index.ts`
(CLI argument validation).  Effectful pieces are modelled by explicit
parameters: the ledger spend oracle `spend : String → Option String`
stands for `getOutputSpendingTx (txid, 0)` over a fixed ledger (that
function never throws, see `getOutputSpendingTx` below, so it is total),
`now : Nat` stands for `Date.now()`, and `console.warn` emission is
tracked as an explicit boolean in each result.
-/

/-- Cache entry for a single authchain (`AuthchainCacheEntry` in
`authchain-cache.ts`). -/
structure AuthchainCacheEntry where
  authbase : String
  authhead : String
  chainLength : Nat
  isActive : Bool
  lastCheckedTimestamp : Nat
deriving DecidableEq

/-- Complete authchain cache structure (`AuthchainCache` in
`authchain-cache.ts`); `entries` is the JS record keyed by authbase txid,
modelled as an association list. -/
structure AuthchainCache where
  version : Nat
  entries : List (String × AuthchainCacheEntry)
deriving DecidableEq

/-- Cache hit classification from `resolveAuthchain` in `bcmr.ts`
(the TS string literals perfect, good, partial, miss). -/
inductive CacheHitType where
  | perfect
  | good
  | partialHit
  | miss
deriving DecidableEq

/-- Result of `resolveAuthchain` (`AuthchainResolutionResult` in `bcmr.ts`),
instrumented with two observation fields: `boundHit` records whether the
1000-hop bound return statement was taken, and `warned` records whether
`console.warn` was called (only the miss-path bound return warns). -/
structure AuthchainResolutionResult where
  entry : AuthchainCacheEntry
  queriesUsed : Nat
  cacheHitType : CacheHitType
  boundHit : Bool
  warned : Bool
deriving DecidableEq

/-- The hard-coded `maxChainLength` constant of `resolveAuthchain`. -/
def maxChainLength : Nat := 1000

/-- The walk loop shared by the miss path (bcmr.ts lines 335-357) and the
resume-from-cache path (lines 277-298): `while (chainLength < maxChainLength)`
query the spend oracle for the current txid; on `null` return the active
entry, otherwise follow the spending transaction.  `fuel` is
`maxChainLength - chainLength` at loop entry, so `fuel = 0` is exactly the
loop-exit (bound hit) case; the third component of the result records
whether the bound was hit. -/
def walkChain (spend : String → Option String) (authbase : String) (now : Nat) :
    Nat → String → Nat → Nat → AuthchainCacheEntry × Nat × Bool
  | 0, current, len, q => (⟨authbase, current, len, false, now⟩, q, true)
  | fuel + 1, current, len, q =>
    match spend current with
    | none => (⟨authbase, current, len, true, now⟩, q + 1, false)
    | some next => walkChain spend authbase now fuel next (len + 1) (q + 1)

/-- Cache lookup `cache?.entries[authbaseTxid]` (bcmr.ts line 243). -/
def lookupEntry (cache : Option AuthchainCache) (authbaseTxid : String) :
    Option AuthchainCacheEntry :=
  cache.bind (fun c => c.entries.lookup authbaseTxid)

/-- Shallow embedding of `resolveAuthchain` (bcmr.ts lines 239-388).
The catch-blocks of the source are dead code in this model because the
spend oracle models `getOutputSpendingTx`, which never throws (it fails
soft, see `getOutputSpendingTx` below). -/
def resolveAuthchain (spend : String → Option String) (now : Nat)
    (authbaseTxid : String) (cache : Option AuthchainCache) :
    AuthchainResolutionResult :=
  match lookupEntry cache authbaseTxid with
  | some cachedEntry =>
    if cachedEntry.isActive = false then
      ⟨cachedEntry, 0, CacheHitType.perfect, false, false⟩
    else
      match spend cachedEntry.authhead with
      | none =>
        ⟨{ cachedEntry with lastCheckedTimestamp := now }, 1,
          CacheHitType.good, false, false⟩
      | some spendingTx =>
        let r := walkChain spend authbaseTxid now
          (maxChainLength - (cachedEntry.chainLength + 1)) spendingTx
          (cachedEntry.chainLength + 1) 1
        ⟨r.1, r.2.1, CacheHitType.partialHit, r.2.2, false⟩
  | none =>
    let r := walkChain spend authbaseTxid now (maxChainLength - 1)
      authbaseTxid 1 0
    ⟨r.1, r.2.1, CacheHitType.miss, r.2.2, r.2.2⟩

/-- C1: for every cache entry with `isActive = false`, resolving its
authbase with that cache returns the identical entry (all fields unchanged,
including `lastCheckedTimestamp`), reports zero backend queries, and
classifies the outcome as perfect. -/
theorem resolveAuthchain_inactive_perfect
    (spend : String → Option String) (now : Nat) (authbaseTxid : String)
    (cache : Option AuthchainCache) (e : AuthchainCacheEntry)
    (hfound : lookupEntry cache authbaseTxid = some e)
    (hinactive : e.isActive = false) :
    resolveAuthchain spend now authbaseTxid cache =
      ⟨e, 0, CacheHitType.perfect, false, false⟩ := by
  simp [resolveAuthchain, hfound, hinactive]

/-- Witness for C1: a concrete inactive cache entry resolves to itself,
perfectly, with zero queries. -/
theorem resolveAuthchain_inactive_perfect_witness :
    lookupEntry
        (some ⟨1, [("aa", ⟨"aa", "bb", 2, false, 77⟩)]⟩) "aa" =
      some ⟨"aa", "bb", 2, false, 77⟩ ∧
    resolveAuthchain (fun _ => none) 99 "aa"
        (some ⟨1, [("aa", ⟨"aa", "bb", 2, false, 77⟩)]⟩) =
      ⟨⟨"aa", "bb", 2, false, 77⟩, 0, CacheHitType.perfect, false, false⟩ :=
  ⟨rfl,
    resolveAuthchain_inactive_perfect (fun _ => none) 99 "aa"
      (some ⟨1, [("aa", ⟨"aa", "bb", 2, false, 77⟩)]⟩)
      ⟨"aa", "bb", 2, false, 77⟩ rfl rfl⟩

/-- C4: for every cache entry with `isActive = true` whose recorded
authhead output 0 is still unspent, re-resolving issues exactly one backend
query, returns the cached entry with only `lastCheckedTimestamp` refreshed,
and classifies the outcome as good. -/
theorem resolveAuthchain_probe_good
    (spend : String → Option String) (now : Nat) (authbaseTxid : String)
    (cache : Option AuthchainCache) (e : AuthchainCacheEntry)
    (hfound : lookupEntry cache authbaseTxid = some e)
    (hactive : e.isActive = true)
    (hunspent : spend e.authhead = none) :
    resolveAuthchain spend now authbaseTxid cache =
      ⟨{ e with lastCheckedTimestamp := now }, 1,
        CacheHitType.good, false, false⟩ := by
  simp [resolveAuthchain, hfound, hactive, hunspent]

/-- Witness for C4: a concrete active cache entry whose authhead is unspent
resolves with one query, refreshing only the timestamp. -/
theorem resolveAuthchain_probe_good_witness :
    lookupEntry
        (some ⟨1, [("aa", ⟨"aa", "bb", 3, true, 77⟩)]⟩) "aa" =
      some ⟨"aa", "bb", 3, true, 77⟩ ∧
    resolveAuthchain (fun _ => none) 99 "aa"
        (some ⟨1, [("aa", ⟨"aa", "bb", 3, true, 77⟩)]⟩) =
      ⟨⟨"aa", "bb", 3, true, 99⟩, 1, CacheHitType.good, false, false⟩ :=
  ⟨rfl,
    resolveAuthchain_probe_good (fun _ => none) 99 "aa"
      (some ⟨1, [("aa", ⟨"aa", "bb", 3, true, 77⟩)]⟩)
      ⟨"aa", "bb", 3, true, 77⟩ rfl rfl rfl⟩

/-- Iterated spend oracle: `stepN spend k s` follows the spending chain `k`
hops from `s` (none if the chain ends strictly before `k` hops). -/
def stepN (spend : String → Option String) : Nat → String → Option String
  | 0, s => some s
  | k + 1, s => (spend s).bind (stepN spend k)

theorem stepN_add (spend : String → Option String) (i j : Nat) (s : String) :
    stepN spend (i + j) s = (stepN spend i s).bind (stepN spend j) := by
  induction i generalizing s with
  | zero => simp [stepN]
  | succ i ih =>
    have : i + 1 + j = (i + j) + 1 := by omega
    rw [this]
    simp only [stepN]
    cases spend s with
    | none => simp
    | some t => simp [ih]

/-- If the chain from `s` reaches an unspent tip within the remaining fuel,
the walk loop returns that tip as an active entry, having issued one query
per hop plus the final unspent-confirming query. -/
theorem walkChain_spec (spend : String → Option String)
    (authbase : String) (now : Nat) :
    ∀ (k fuel : Nat) (s tip : String) (len q : Nat),
      stepN spend k s = some tip → spend tip = none → k < fuel →
      walkChain spend authbase now fuel s len q =
        (⟨authbase, tip, len + k, true, now⟩, q + k + 1, false) := by
  intro k
  induction k with
  | zero =>
    intro fuel s tip len q hstep htip hlt
    have hs : s = tip := by simpa [stepN] using hstep
    subst hs
    match fuel, hlt with
    | fuel + 1, _ => simp [walkChain, htip]
  | succ k ih =>
    intro fuel s tip len q hstep htip hlt
    simp only [stepN] at hstep
    match hspend : spend s with
    | none => rw [hspend] at hstep; simp at hstep
    | some next =>
      rw [hspend] at hstep
      have hstep2 : stepN spend k next = some tip := hstep
      match fuel, hlt with
      | fuel + 1, hlt =>
        have hk : k < fuel := by omega
        have h1 : len + (k + 1) = len + 1 + k := by omega
        have h2 : q + (k + 1) + 1 = q + 1 + k + 1 := by omega
        simp only [walkChain, hspend]
        rw [ih fuel next tip (len + 1) (q + 1) hstep2 htip hk, h1, h2]

/-- Helper characterising the resume path of `resolveAuthchain` (bcmr.ts
lines 270-298): a cached active entry whose authhead is spent by `S` is
continued from `S` at `chainLength + 1`; if the chain from `S` reaches an
unspent tip in `k` further hops before the bound, the result is a partial
hit at the tip. -/
theorem resolveAuthchain_resume_spec
    (spend : String → Option String) (now : Nat) (authbaseTxid : String)
    (cache : Option AuthchainCache) (e : AuthchainCacheEntry)
    (S tip : String) (k : Nat)
    (hfound : lookupEntry cache authbaseTxid = some e)
    (hactive : e.isActive = true)
    (hspent : spend e.authhead = some S)
    (hhops : stepN spend k S = some tip)
    (htip : spend tip = none)
    (hbound : e.chainLength + 1 + k < maxChainLength) :
    resolveAuthchain spend now authbaseTxid cache =
      ⟨⟨authbaseTxid, tip, e.chainLength + 1 + k, true, now⟩, k + 2,
        CacheHitType.partialHit, false, false⟩ := by
  have hk : k < maxChainLength - (e.chainLength + 1) := by
    unfold maxChainLength at hbound ⊢; omega
  have hw := walkChain_spec spend authbaseTxid now k
    (maxChainLength - (e.chainLength + 1)) S tip (e.chainLength + 1) 1
    hhops htip hk
  simp [resolveAuthchain, hfound, hactive, hspent, hw]
  omega

/-- Helper characterising the miss path of `resolveAuthchain` (bcmr.ts
lines 328-357): with no cache entry the full walk starts at the authbase
with chain length 1; if the chain reaches an unspent tip in `n` hops before
the bound, the result is an active entry at the tip with `n + 1` total
chain length and `n + 1` queries. -/
theorem resolveAuthchain_miss_spec
    (spend : String → Option String) (now : Nat) (authbaseTxid : String)
    (cache : Option AuthchainCache) (tip : String) (n : Nat)
    (hnone : lookupEntry cache authbaseTxid = none)
    (hhops : stepN spend n authbaseTxid = some tip)
    (htip : spend tip = none)
    (hbound : n + 1 < maxChainLength) :
    resolveAuthchain spend now authbaseTxid cache =
      ⟨⟨authbaseTxid, tip, n + 1, true, now⟩, n + 1,
        CacheHitType.miss, false, false⟩ := by
  have hk : n < maxChainLength - 1 := by
    unfold maxChainLength at hbound ⊢; omega
  have hw := walkChain_spec spend authbaseTxid now n
    (maxChainLength - 1) authbaseTxid tip 1 0 hhops htip hk
  simp [resolveAuthchain, hnone, hw]
  omega

/-- C3: for a cached active entry whose recorded authhead has become spent
by transaction `S`, resolution resumes the walk from `S` with chain length
`cachedEntry.chainLength + 1`, counts the probe as one query, and (absent
the hop bound) returns the new unspent tip with chain length
`oldLength + 1 + k`, where `k` is the number of additional hops from `S`
to that tip, as a partial hit using `k + 2` queries in total. -/
theorem resolveAuthchain_resume_correct
    (spend : String → Option String) (now : Nat) (authbaseTxid : String)
    (cache : Option AuthchainCache) (e : AuthchainCacheEntry)
    (S tip : String) (k : Nat)
    (hfound : lookupEntry cache authbaseTxid = some e)
    (hactive : e.isActive = true)
    (hspent : spend e.authhead = some S)
    (hhops : stepN spend k S = some tip)
    (htip : spend tip = none)
    (hbound : e.chainLength + 1 + k < maxChainLength) :
    resolveAuthchain spend now authbaseTxid cache =
      ⟨⟨authbaseTxid, tip, e.chainLength + 1 + k, true, now⟩, k + 2,
        CacheHitType.partialHit, false, false⟩ :=
  resolveAuthchain_resume_spec spend now authbaseTxid cache e S tip k
    hfound hactive hspent hhops htip hbound

/-- Witness for C3: chain aa → bb → cc → dd with dd unspent, cached entry
recorded tip bb at length 2; resolution resumes from cc and lands on dd at
length 4 with 3 queries. -/
theorem resolveAuthchain_resume_correct_witness :
    lookupEntry (some ⟨1, [("aa", ⟨"aa", "bb", 2, true, 5⟩)]⟩) "aa" =
      some ⟨"aa", "bb", 2, true, 5⟩ ∧
    resolveAuthchain
        (fun t => if t = "aa" then some "bb" else if t = "bb" then some "cc"
          else if t = "cc" then some "dd" else none)
        99 "aa" (some ⟨1, [("aa", ⟨"aa", "bb", 2, true, 5⟩)]⟩) =
      ⟨⟨"aa", "dd", 4, true, 99⟩, 3, CacheHitType.partialHit, false, false⟩ :=
  ⟨rfl,
    resolveAuthchain_resume_correct
      (fun t => if t = "aa" then some "bb" else if t = "bb" then some "cc"
        else if t = "cc" then some "dd" else none)
      99 "aa" (some ⟨1, [("aa", ⟨"aa", "bb", 2, true, 5⟩)]⟩)
      ⟨"aa", "bb", 2, true, 5⟩ "cc" "dd" 1 rfl rfl (by decide) (by decide)
      (by decide) (by decide)⟩

/-- C2: resolving with no cache entry (full walk from the authbase) yields
the same final authhead, chainLength and isActive as resolving with any
valid intermediate cached entry for the chain (probe of the cached authhead
followed by resume), provided neither run hits the hop bound (the spend
oracle cannot error, see `getOutputSpendingTx`).  A valid intermediate
cached entry is an active entry whose authhead lies on the chain at
position `chainLength - 1` from the authbase. -/
theorem resolveAuthchain_walk_equivalence
    (spend : String → Option String) (now1 now2 : Nat) (a tip : String)
    (cache : Option AuthchainCache) (e : AuthchainCacheEntry) (n : Nat)
    (hchain : stepN spend n a = some tip)
    (htip : spend tip = none)
    (hbound : n + 1 < maxChainLength)
    (hfound : lookupEntry cache a = some e)
    (hactive : e.isActive = true)
    (hlen : 1 ≤ e.chainLength)
    (hvalid : stepN spend (e.chainLength - 1) a = some e.authhead) :
    ((resolveAuthchain spend now1 a none).entry.authhead,
      (resolveAuthchain spend now1 a none).entry.chainLength,
      (resolveAuthchain spend now1 a none).entry.isActive) =
        (tip, n + 1, true) ∧
    ((resolveAuthchain spend now2 a cache).entry.authhead,
      (resolveAuthchain spend now2 a cache).entry.chainLength,
      (resolveAuthchain spend now2 a cache).entry.isActive) =
        (tip, n + 1, true) := by
  constructor
  · rw [resolveAuthchain_miss_spec spend now1 a none tip n rfl hchain htip
      hbound]
  · -- the cached entry cannot lie beyond the tip of the chain
    have hstop : stepN spend (n + 1) a = none := by
      rw [stepN_add spend n 1 a, hchain]
      simp [stepN, htip]
    have hmn : e.chainLength - 1 ≤ n := by
      by_contra hc
      have hsplit : e.chainLength - 1 = (n + 1) + (e.chainLength - 1 - (n + 1)) := by
        omega
      rw [hsplit, stepN_add, hstop] at hvalid
      simp at hvalid
    -- the remaining distance from the cached authhead to the tip
    have hj : stepN spend (n - (e.chainLength - 1)) e.authhead = some tip := by
      have hsplit : n = (e.chainLength - 1) + (n - (e.chainLength - 1)) := by
        omega
      rw [hsplit, stepN_add, hvalid] at hchain
      simpa using hchain
    rcases Nat.eq_zero_or_pos (n - (e.chainLength - 1)) with hd | hd
    · rw [hd] at hj
      have hht : e.authhead = tip := by simpa [stepN] using hj
      have hunspent : spend e.authhead = none := by rw [hht]; exact htip
      rw [resolveAuthchain]
      simp [hfound, hactive, hunspent, htip, hht]
      omega
    · have hd1 : n - (e.chainLength - 1) = (n - (e.chainLength - 1) - 1) + 1 := by
        omega
      rw [hd1] at hj
      simp only [stepN] at hj
      cases hs : spend e.authhead with
      | none => rw [hs] at hj; simp at hj
      | some S =>
        rw [hs] at hj
        have hj2 : stepN spend (n - (e.chainLength - 1) - 1) S = some tip := hj
        have hb2 : e.chainLength + 1 + (n - (e.chainLength - 1) - 1) <
            maxChainLength := by
          unfold maxChainLength at hbound ⊢; omega
        rw [resolveAuthchain_resume_spec spend now2 a cache e S tip
          (n - (e.chainLength - 1) - 1) hfound hactive hs hj2 htip hb2]
        simp
        omega

/-- Witness for C2: the chain aa → bb with bb unspent resolved cold, and
resolved from a valid cached entry recording authhead aa at length 1, both
land on authhead bb, chain length 2, active. -/
theorem resolveAuthchain_walk_equivalence_witness :
    stepN (fun t => if t = "aa" then some "bb" else none) 1 "aa" =
        some "bb" ∧
    ((resolveAuthchain (fun t => if t = "aa" then some "bb" else none)
        7 "aa" none).entry.authhead,
      (resolveAuthchain (fun t => if t = "aa" then some "bb" else none)
        7 "aa" none).entry.chainLength,
      (resolveAuthchain (fun t => if t = "aa" then some "bb" else none)
        7 "aa" none).entry.isActive) = ("bb", 2, true) ∧
    ((resolveAuthchain (fun t => if t = "aa" then some "bb" else none)
        8 "aa" (some ⟨1, [("aa", ⟨"aa", "aa", 1, true, 5⟩)]⟩)).entry.authhead,
      (resolveAuthchain (fun t => if t = "aa" then some "bb" else none)
        8 "aa" (some ⟨1, [("aa", ⟨"aa", "aa", 1, true, 5⟩)]⟩)).entry.chainLength,
      (resolveAuthchain (fun t => if t = "aa" then some "bb" else none)
        8 "aa" (some ⟨1, [("aa", ⟨"aa", "aa", 1, true, 5⟩)]⟩)).entry.isActive) =
      ("bb", 2, true) := by
  have h := resolveAuthchain_walk_equivalence
    (fun t => if t = "aa" then some "bb" else none) 7 8 "aa" "bb"
    (some ⟨1, [("aa", ⟨"aa", "aa", 1, true, 5⟩)]⟩)
    ⟨"aa", "aa", 1, true, 5⟩ 1 (by decide) (by decide) (by decide) rfl rfl
    (by decide) (by decide)
  exact ⟨by decide, h.1, h.2⟩

/-- When the walk loop exits through the hop bound, the entry it returns is
marked inactive. -/
theorem walkChain_bound_inactive (spend : String → Option String)
    (authbase : String) (now : Nat) :
    ∀ (fuel : Nat) (s : String) (len q : Nat),
      (walkChain spend authbase now fuel s len q).2.2 = true →
      (walkChain spend authbase now fuel s len q).1.isActive = false := by
  intro fuel
  induction fuel with
  | zero => intro s len q _; rfl
  | succ fuel ih =>
    intro s len q h
    simp only [walkChain] at h ⊢
    cases hs : spend s with
    | none =>
      rw [hs] at h
      simp at h
    | some next =>
      rw [hs] at h
      exact ih next (len + 1) (q + 1) h

/-- C5 (amended): resolution always terminates (it is a total function of
its inputs), and whenever the 1000-hop bound is hit the returned entry has
`isActive = false`; a warning is logged exactly when the bound is hit on
the no-cache (miss) full walk — the resume walk from a cached entry hits
the bound silently. -/
theorem resolveAuthchain_bound_safety
    (spend : String → Option String) (now : Nat) (authbaseTxid : String)
    (cache : Option AuthchainCache)
    (hbound : (resolveAuthchain spend now authbaseTxid cache).boundHit = true) :
    (resolveAuthchain spend now authbaseTxid cache).entry.isActive = false ∧
    (resolveAuthchain spend now authbaseTxid cache).warned =
      ((resolveAuthchain spend now authbaseTxid cache).cacheHitType ==
        CacheHitType.miss) := by
  cases hl : lookupEntry cache authbaseTxid with
  | none =>
    simp only [resolveAuthchain, hl] at hbound ⊢
    refine ⟨walkChain_bound_inactive spend authbaseTxid now
      (maxChainLength - 1) authbaseTxid 1 0 hbound, ?_⟩
    rw [hbound]
    rfl
  | some e =>
    cases ha : e.isActive with
    | false =>
      simp [resolveAuthchain, hl, ha] at hbound
    | true =>
      cases hs : spend e.authhead with
      | none =>
        simp [resolveAuthchain, hl, ha, hs] at hbound
      | some S =>
        simp only [resolveAuthchain, hl, ha, hs] at hbound ⊢
        refine ⟨walkChain_bound_inactive spend authbaseTxid now
          (maxChainLength - (e.chainLength + 1)) S (e.chainLength + 1) 1
          ?_, ?_⟩
        · simpa using hbound
        · simp

set_option maxRecDepth 8000 in
/-- Witness for C5 (amended): a synthetic fully-cyclic spend oracle (every
output spent) walked cold from the authbase terminates by hitting the
1000-hop bound, returning an inactive entry with the miss-path warning
logged. -/
theorem resolveAuthchain_bound_safety_witness :
    (resolveAuthchain (fun _ => some "xx") 3 "aa" none).boundHit = true ∧
    ((resolveAuthchain (fun _ => some "xx") 3 "aa" none).entry.isActive =
        false ∧
      (resolveAuthchain (fun _ => some "xx") 3 "aa" none).warned =
        ((resolveAuthchain (fun _ => some "xx") 3 "aa" none).cacheHitType ==
          CacheHitType.miss)) :=
  ⟨rfl, resolveAuthchain_bound_safety (fun _ => some "xx") 3 "aa" none rfl⟩

/-- Counterexample to C5 as stated: resuming from a cached active entry of
chain length 998 whose authhead is spent, over a fully-cyclic spend oracle,
hits the 1000-hop bound and returns an inactive entry, but logs no warning
(the warning in bcmr.ts line 360 exists only on the no-cache miss path; the
resume-path bound return at lines 300-311 does not warn). -/
theorem resolveAuthchain_boundWarn_counterexample :
    (resolveAuthchain (fun _ => some "bb") 3 "aa"
        (some ⟨1, [("aa", ⟨"aa", "hh", 998, true, 0⟩)]⟩)).boundHit = true ∧
    (resolveAuthchain (fun _ => some "bb") 3 "aa"
        (some ⟨1, [("aa", ⟨"aa", "hh", 998, true, 0⟩)]⟩)).entry.isActive =
      false ∧
    (resolveAuthchain (fun _ => some "bb") 3 "aa"
        (some ⟨1, [("aa", ⟨"aa", "hh", 998, true, 0⟩)]⟩)).warned = false :=
  ⟨rfl, rfl, rfl⟩

/-- One transaction input as decoded by the Fulcrum verbose transaction
format (`vin` entries in `fulcrum-client.ts`). -/
structure TxInput where
  txid : String
  vout : Nat
deriving DecidableEq

/-- One transaction output as decoded by the Fulcrum verbose transaction
format (`vout` entries); only the locking script hex is relevant here. -/
structure TxOutput where
  scriptPubKeyHex : String
deriving DecidableEq

/-- Verbose transaction (`TransactionVerbose` in `fulcrum-client.ts`),
restricted to the fields `getOutputSpendingTx` reads. -/
structure TransactionVerbose where
  txid : String
  vin : List TxInput
  vout : List TxOutput
deriving DecidableEq

/-- Scripthash history item (`HistoryItem` in `fulcrum-client.ts`). -/
structure HistoryItem where
  tx_hash : String
  height : Int
deriving DecidableEq

/-- The Fulcrum backend as seen through the connection pool: each RPC call
can either answer or fail (transport fault, server error, timeout - any
rejected promise).  This abstracts `getTransaction` and
`getScripthashHistory` of `fulcrum-client.ts`. -/
structure FulcrumBackend where
  getTransaction : String → Except String TransactionVerbose
  getScripthashHistory : String → Except String (List HistoryItem)

/-- The history scan of `getOutputSpendingTx` (fulcrum-client.ts lines
352-361): fetch each history entry after ours in order and return the
first whose inputs consume `(txid, vout)`. -/
def findSpendingInHistory (B : FulcrumBackend) (txid : String) (vout : Nat) :
    List HistoryItem → Except String (Option String)
  | [] => Except.ok none
  | h :: rest =>
    match B.getTransaction h.tx_hash with
    | Except.error e => Except.error e
    | Except.ok candidateTx =>
      if candidateTx.vin.any (fun inp => inp.txid == txid && inp.vout == vout)
      then Except.ok (some h.tx_hash)
      else findSpendingInHistory B txid vout rest

/-- The body of `getOutputSpendingTx` before its catch-all (fulcrum-client.ts
lines 327-364): fetch the transaction, look up the queried output (throwing
if it does not exist), derive the scripthash of its locking script
(`scripthashOf` abstracts sha256-then-byte-reverse of
`calculateScripthash`), fetch the scripthash history, locate our
transaction in it (absent means unconfirmed: unspent), and scan the
following entries for a spender. -/
def getOutputSpendingTxCore (B : FulcrumBackend)
    (scripthashOf : String → String) (txid : String) (vout : Nat) :
    Except String (Option String) :=
  match B.getTransaction txid with
  | Except.error e => Except.error e
  | Except.ok tx =>
    match tx.vout.get? vout with
    | none => Except.error "Output does not exist in transaction"
    | some out =>
      match B.getScripthashHistory (scripthashOf out.scriptPubKeyHex) with
      | Except.error e => Except.error e
      | Except.ok history =>
        match history.findIdx? (fun h => h.tx_hash == txid) with
        | none => Except.ok none
        | some ourTxIndex =>
          findSpendingInHistory B txid vout (history.drop (ourTxIndex + 1))

/-- Full `getOutputSpendingTx` (fulcrum-client.ts lines 322-370): the body
wrapped in try/catch - on any error it logs a warning (second component
`true`) and returns `none` (assume unspent).  The total return type is the
formal counterpart of never throwing out of the resolver. -/
def getOutputSpendingTx (B : FulcrumBackend)
    (scripthashOf : String → String) (txid : String) (vout : Nat) :
    Option String × Bool :=
  match getOutputSpendingTxCore B scripthashOf txid vout with
  | Except.ok r => (r, false)
  | Except.error _ => (none, true)

/-- C6: `getOutputSpendingTx` never throws (its Lean counterpart is a total
function into `Option String × Bool`); on every failing execution of its
body - transport fault on any RPC, nonexistent output index, or a fault
during the history scan - it logs a warning and returns null (assume
unspent), so a spend check never aborts the enclosing resolution run. -/
theorem getOutputSpendingTx_failsoft (B : FulcrumBackend)
    (scripthashOf : String → String) (txid : String) (vout : Nat)
    (hfail : (∃ e, B.getTransaction txid = Except.error e) ∨
      (∃ tx, B.getTransaction txid = Except.ok tx ∧
        tx.vout.get? vout = none) ∨
      (∃ e, getOutputSpendingTxCore B scripthashOf txid vout =
        Except.error e)) :
    getOutputSpendingTx B scripthashOf txid vout = (none, true) := by
  rcases hfail with ⟨e, he⟩ | ⟨tx, htx, hout⟩ | ⟨e, he⟩
  · simp [getOutputSpendingTx, getOutputSpendingTxCore, he]
  · simp only [List.get?_eq_getElem?] at hout
    simp [getOutputSpendingTx, getOutputSpendingTxCore, htx, hout]
  · simp [getOutputSpendingTx, he]

/-- Witness for C6: a backend whose transaction fetch always fails with a
connection error yields (null, warning) instead of aborting. -/
theorem getOutputSpendingTx_failsoft_witness :
    (⟨fun _ => Except.error "connection lost",
        fun _ => Except.error "connection lost"⟩ :
      FulcrumBackend).getTransaction "aa" =
        Except.error "connection lost" ∧
    getOutputSpendingTx
        ⟨fun _ => Except.error "connection lost",
          fun _ => Except.error "connection lost"⟩
        (fun s => s) "aa" 0 = (none, true) :=
  ⟨rfl,
    getOutputSpendingTx_failsoft
      ⟨fun _ => Except.error "connection lost",
        fun _ => Except.error "connection lost"⟩
      (fun s => s) "aa" 0 (Or.inl ⟨"connection lost", rfl⟩)⟩

/-- A queued logical request (`PendingRequest` in `fulcrum-client.ts`,
without the promise callbacks, which are modelled by the sent/rejected
output lists below). -/
structure PendingRequest where
  id : Nat
  method : String
deriving DecidableEq

/-- Shallow embedding of `FulcrumConnectionPool.processQueue`
(fulcrum-client.ts lines 195-220).  Connections are identified by numbers;
`sendOk c` models whether `ws.send` on connection `c` succeeds or throws.
State is passed explicitly: the request queue, the available (idle)
connection list, the pending-request map (as the list of sent requests
keyed by id), and the accumulated list of rejected requests (the requests
whose promise was rejected by the catch block).  The loop runs while both
the queue and the idle list are non-empty; on a send failure the request is
removed from pending, rejected, and the connection pushed to the back of
the idle list. -/
def processQueue (sendOk : Nat → Bool) :
    List PendingRequest → List Nat → List (Nat × PendingRequest) →
    List PendingRequest →
    List PendingRequest × List Nat × List (Nat × PendingRequest) ×
      List PendingRequest
  | [], avail, pending, rejected => ([], avail, pending, rejected)
  | r :: rest, [], pending, rejected => (r :: rest, [], pending, rejected)
  | r :: rest, c :: cs, pending, rejected =>
    if sendOk c then
      processQueue sendOk rest cs (pending ++ [(r.id, r)]) rejected
    else
      processQueue sendOk rest (cs ++ [c]) pending (rejected ++ [r])

/-- Invariant of the queue-draining loop: every request that entered is
accounted for exactly once among sent (pending), rejected, and still
queued; connections are conserved between the idle list and the busy
(pending) count; and the final idle list only contains connections that
were idle at entry. -/
theorem processQueue_invariant (sendOk : Nat → Bool) :
    ∀ (queue : List PendingRequest) (avail : List Nat)
      (pending : List (Nat × PendingRequest))
      (rejected : List PendingRequest),
      ((processQueue sendOk queue avail pending rejected).2.2.1.map
          Prod.snd ++
        (processQueue sendOk queue avail pending rejected).2.2.2 ++
        (processQueue sendOk queue avail pending rejected).1).Perm
        (pending.map Prod.snd ++ rejected ++ queue) ∧
      (processQueue sendOk queue avail pending rejected).2.1.length +
        (processQueue sendOk queue avail pending rejected).2.2.1.length =
        avail.length + pending.length ∧
      ∀ c, c ∈ (processQueue sendOk queue avail pending rejected).2.1 →
        c ∈ avail := by
  intro queue
  induction queue with
  | nil =>
    intro avail pending rejected
    refine ⟨by simp [processQueue], by simp [processQueue], ?_⟩
    intro c hc
    simpa [processQueue] using hc
  | cons r rest ih =>
    intro avail pending rejected
    cases avail with
    | nil =>
      refine ⟨by simp [processQueue], by simp [processQueue], ?_⟩
      intro c hc
      simp only [processQueue] at hc
      exact hc
    | cons c cs =>
      by_cases hs : sendOk c
      · have hstep : processQueue sendOk (r :: rest) (c :: cs) pending
            rejected =
            processQueue sendOk rest cs (pending ++ [(r.id, r)]) rejected := by
          simp [processQueue, hs]
        have h := ih cs (pending ++ [(r.id, r)]) rejected
        rw [hstep]
        refine ⟨h.1.trans ?_, ?_, ?_⟩
        · simp only [List.map_append, List.map_cons, List.map_nil,
            List.append_assoc, List.singleton_append, List.cons_append,
            List.nil_append]
          exact List.Perm.append_left _ List.perm_middle.symm
        · have := h.2.1
          simp only [List.length_append, List.length_cons,
            List.length_nil] at this ⊢
          omega
        · intro x hx
          exact List.mem_cons_of_mem c (h.2.2 x hx)
      · have hstep : processQueue sendOk (r :: rest) (c :: cs) pending
            rejected =
            processQueue sendOk rest (cs ++ [c]) pending (rejected ++ [r]) := by
          simp [processQueue, hs]
        have h := ih (cs ++ [c]) pending (rejected ++ [r])
        rw [hstep]
        refine ⟨h.1.trans ?_, ?_, ?_⟩
        · simp only [List.append_assoc, List.singleton_append,
            List.cons_append, List.nil_append]
          exact List.Perm.refl _
        · have := h.2.1
          simp only [List.length_append, List.length_cons,
            List.length_nil] at this ⊢
          omega
        · intro x hx
          have hx2 := h.2.2 x hx
          rcases List.mem_append.mp hx2 with hx3 | hx3
          · exact List.mem_cons_of_mem c hx3
          · simp only [List.mem_singleton] at hx3
            subst hx3
            exact List.mem_cons_self x cs

/-- C7 (amended): when sending a request over a connection fails, that one
request is rejected (its promise is rejected; it is not re-queued) and the
connection is returned to the back of the idle list; no other queued work
is lost: every request that entered the queue ends up exactly once among
sent, rejected, and still-queued, and connections are conserved (idle
count plus busy count is preserved, and every idle connection at exit was
idle at entry). -/
theorem processQueue_conservation (sendOk : Nat → Bool)
    (queue : List PendingRequest) (avail : List Nat) :
    ((processQueue sendOk queue avail [] []).2.2.1.map Prod.snd ++
      (processQueue sendOk queue avail [] []).2.2.2 ++
      (processQueue sendOk queue avail [] []).1).Perm queue ∧
    (processQueue sendOk queue avail [] []).2.1.length +
      (processQueue sendOk queue avail [] []).2.2.1.length = avail.length ∧
    ∀ c, c ∈ (processQueue sendOk queue avail [] []).2.1 → c ∈ avail := by
  have h := processQueue_invariant sendOk queue avail [] []
  refine ⟨by simpa using h.1, by simpa using h.2.1, h.2.2⟩

/-- Counterexample to C7 as stated: with one queued request and one idle
connection whose send fails, the request is NOT returned to the back of
the request queue (the final queue is empty); instead it is rejected, and
the connection returns to the idle set (fulcrum-client.ts lines 213-218
call request.reject, not a re-enqueue). -/
theorem processQueue_requeue_counterexample :
    (processQueue (fun _ => false) [⟨1, "m"⟩] [7] [] []).1 = [] ∧
    ¬ (⟨1, "m"⟩ : PendingRequest) ∈
        (processQueue (fun _ => false) [⟨1, "m"⟩] [7] [] []).1 ∧
    (processQueue (fun _ => false) [⟨1, "m"⟩] [7] [] []).2.2.2 =
      [⟨1, "m"⟩] ∧
    (processQueue (fun _ => false) [⟨1, "m"⟩] [7] [] []).2.1 = [7] := by
  refine ⟨rfl, ?_, rfl, rfl⟩
  simp [processQueue]

/-- Validation of the --concurrency CLI value (index.ts lines 103-110):
`none` models a `parseInt` NaN result; values outside 1..200 make the
program exit with an error before any resolution happens. -/
def parseConcurrencyArg : Option Int → Except Unit Nat
  | none => Except.error ()
  | some v =>
    if v < 1 || v > 200 then Except.error () else Except.ok v.toNat

/-- Concurrency as chosen by `parseArgs` (index.ts line 59 and 103-110):
the outer `none` means the flag was not supplied, giving the default 50. -/
def cliConcurrency : Option (Option Int) → Except Unit Nat
  | none => Except.ok 50
  | some v => parseConcurrencyArg v

/-- The `options?.concurrency || 50` selection of `getBCMRRegistries`
(bcmr.ts line 409); in JS `0` is falsy, hence also maps to the default. -/
def effectiveConcurrency : Option Nat → Nat
  | none => 50
  | some c => if c = 0 then 50 else c

/-- The batching loop of `getBCMRRegistries` (bcmr.ts lines 597-600):
`for (let i = 0; i < n; i += concurrency) slice(i, i + concurrency)`.
The fuel argument bounds the iteration count; `toBatches` supplies
`xs.length`, which suffices whenever the concurrency is at least 1 (the
only values reachable through the CLI validation). -/
def batchGo (c : Nat) : Nat → List α → List (List α)
  | _, [] => []
  | 0, ys => [ys]
  | fuel + 1, ys => ys.take c :: batchGo c fuel (ys.drop c)

/-- Partition of the candidate list into consecutive batches of size `c`. -/
def toBatches (c : Nat) (xs : List α) : List (List α) :=
  batchGo c xs.length xs

/-- Every batch produced with a positive concurrency is non-empty and no
larger than the concurrency. -/
theorem batchGo_sizes (c : Nat) (hc : 1 ≤ c) :
    ∀ (fuel : Nat) (ys : List α), ys.length ≤ fuel →
      ∀ b ∈ batchGo c fuel ys, 1 ≤ b.length ∧ b.length ≤ c := by
  intro fuel
  induction fuel with
  | zero =>
    intro ys hlen b hb
    cases ys with
    | nil => simp [batchGo] at hb
    | cons y t => simp at hlen
  | succ fuel ih =>
    intro ys hlen b hb
    cases ys with
    | nil => simp [batchGo] at hb
    | cons y t =>
      simp only [batchGo] at hb
      rcases List.mem_cons.mp hb with hb1 | hb2
      · subst hb1
        simp only [List.length_take, List.length_cons]
        simp only [List.length_cons] at hlen
        omega
      · refine ih ((y :: t).drop c) ?_ b hb2
        simp only [List.length_drop, List.length_cons]
        simp only [List.length_cons] at hlen
        omega

theorem toBatches_sizes (c : Nat) (hc : 1 ≤ c) (xs : List α) :
    ∀ b ∈ toBatches c xs, 1 ≤ b.length ∧ b.length ≤ c :=
  batchGo_sizes c hc xs.length xs (le_refl _)

/-- C8: the concurrency limit defaults to 50 when unspecified (both in the
CLI default and in the orchestrator fallback `options?.concurrency || 50`);
every supplied value accepted by the CLI validation lies in 1..200; and
candidates are partitioned into batches of at most that size, so no batch
larger than 200 (or empty) is ever resolved concurrently. -/
theorem concurrency_bounds (v : Option (Option Int)) (c : Nat)
    (xs : List String) (hok : cliConcurrency v = Except.ok c) :
    (v = none → c = 50) ∧ 1 ≤ c ∧ c ≤ 200 ∧
    effectiveConcurrency none = 50 ∧
    ∀ b ∈ toBatches c xs, 1 ≤ b.length ∧ b.length ≤ c ∧ b.length ≤ 200 := by
  have hbc : 1 ≤ c ∧ c ≤ 200 ∧ (v = none → c = 50) := by
    cases v with
    | none =>
      simp only [cliConcurrency, Except.ok.injEq] at hok
      omega
    | some w =>
      cases w with
      | none => simp [cliConcurrency, parseConcurrencyArg] at hok
      | some z =>
        simp only [cliConcurrency, parseConcurrencyArg] at hok
        split at hok
        · simp at hok
        · rename_i hcond
          simp only [Except.ok.injEq] at hok
          simp only [Bool.or_eq_true, decide_eq_true_eq, not_or] at hcond
          refine ⟨?_, ?_, ?_⟩ <;> first | omega | (intro h; simp at h)
  refine ⟨hbc.2.2, hbc.1, hbc.2.1, rfl, ?_⟩
  intro b hb
  have h := toBatches_sizes c hbc.1 xs b hb
  exact ⟨h.1, h.2, by omega⟩

/-- Witness for C8: concurrency 3 is accepted, lies in bounds, and batches
a four-element candidate list into sizes at most 3 and at least 1. -/
theorem concurrency_bounds_witness :
    cliConcurrency (some (some 3)) = Except.ok 3 ∧
    ((1 : Nat) ≤ 3 ∧ (3 : Nat) ≤ 200 ∧ effectiveConcurrency none = 50 ∧
      ∀ b ∈ toBatches 3 ["a", "b", "c", "d"],
        1 ≤ b.length ∧ b.length ≤ 3 ∧ b.length ≤ 200) := by
  have h := concurrency_bounds (some (some 3)) 3 ["a", "b", "c", "d"] rfl
  exact ⟨rfl, h.2.1, h.2.2.1, h.2.2.2.1, h.2.2.2.2⟩

/-- A parsed JSON value, as produced by `JSON.parse` in
`loadAuthchainCache` (authchain-cache.ts line 45). -/
inductive JsonVal where
  | null
  | bool (b : Bool)
  | num (n : Int)
  | str (s : String)
  | arr (elems : List JsonVal)
  | obj (fields : List (String × JsonVal))

/-- JS property access `value.key` on a parsed JSON value; anything that is
not an object with that key yields `undefined`, modelled as `none`
(accessing a property of `null` throws in JS, but that path is inside the
same try/catch and also ends in the empty cache, so `none` is a faithful
collapse for the checks below). -/
def JsonVal.getField : JsonVal → String → Option JsonVal
  | JsonVal.obj fields, key => fields.lookup key
  | _, _ => none

/-- JS truthiness of a parsed JSON value (`!cache.version` and
`!cache.entries` checks). -/
def JsonVal.truthy : JsonVal → Bool
  | JsonVal.null => false
  | JsonVal.bool b => b
  | JsonVal.num n => n != 0
  | JsonVal.str s => s != ""
  | JsonVal.arr _ => true
  | JsonVal.obj _ => true

/-- JS `typeof x === "number"` on a parsed JSON value. -/
def JsonVal.isNumberType : JsonVal → Bool
  | JsonVal.num _ => true
  | _ => false

/-- JS `typeof x === "object"` on a parsed JSON value (arrays and objects;
`null` is also typeof object in JS but is excluded earlier by the
truthiness check wherever the code tests both). -/
def JsonVal.isObjectType : JsonVal → Bool
  | JsonVal.obj _ => true
  | JsonVal.arr _ => true
  | JsonVal.null => true
  | _ => false

/-- Outcome of reading and parsing the cache file, the effectful prefix of
`loadAuthchainCache`: the file may be missing (ENOENT), unreadable (any
other I/O error), unparseable (JSON.parse throws), or parsed. -/
inductive CacheFileRead where
  | missing
  | readError
  | unparseable
  | parsed (j : JsonVal)

def CacheFileRead.isMissing : CacheFileRead → Bool
  | CacheFileRead.missing => true
  | _ => false

/-- The result of `loadAuthchainCache`: the returned cache value (the
version and the raw entries JSON, which the code does not decode further)
plus whether a warning was logged. -/
structure LoadResult where
  version : Int
  entries : JsonVal
  warned : Bool

/-- Shallow embedding of `loadAuthchainCache` (authchain-cache.ts lines
42-79): validate that `version` is a truthy number, that `entries` is a
truthy object, and that `version === 1`; on any failure, and on any read
or parse error, return the empty cache (`createEmptyCache`, lines 31-36),
warning except in the normal ENOENT first-run case. -/
def loadAuthchainCache : CacheFileRead → LoadResult
  | CacheFileRead.missing => ⟨1, JsonVal.obj [], false⟩
  | CacheFileRead.readError => ⟨1, JsonVal.obj [], true⟩
  | CacheFileRead.unparseable => ⟨1, JsonVal.obj [], true⟩
  | CacheFileRead.parsed j =>
    match j.getField "version" with
    | none => ⟨1, JsonVal.obj [], true⟩
    | some v =>
      if !(v.truthy && v.isNumberType) then ⟨1, JsonVal.obj [], true⟩
      else
        match j.getField "entries" with
        | none => ⟨1, JsonVal.obj [], true⟩
        | some ent =>
          if !(ent.truthy && ent.isObjectType) then ⟨1, JsonVal.obj [], true⟩
          else
            match v with
            | JsonVal.num n =>
              if n != 1 then ⟨1, JsonVal.obj [], true⟩
              else ⟨n, ent, false⟩
            | _ => ⟨1, JsonVal.obj [], true⟩

/-- The condition under which `loadAuthchainCache` accepts the file
content: a parsed object whose `version` field is the number 1 and whose
`entries` field is a truthy object. -/
def validCacheFile : CacheFileRead → Bool
  | CacheFileRead.parsed j =>
    (match j.getField "version" with
      | some (JsonVal.num n) => n == 1
      | _ => false) &&
    (match j.getField "entries" with
      | some ent => ent.truthy && ent.isObjectType
      | none => false)
  | _ => false

/-- C9: loading the cache file never fails fatally: for every file content
that is not a valid version-1 cache (unknown or missing version such as
version 2, malformed entries, unparseable JSON) and for a missing file,
`loadAuthchainCache` returns the empty cache (version 1, empty entries)
instead of throwing, with a warning in every case except the normal
missing-file first run. -/
theorem loadAuthchainCache_failsafe (fr : CacheFileRead)
    (hinvalid : validCacheFile fr = false) :
    loadAuthchainCache fr = ⟨1, JsonVal.obj [], !fr.isMissing⟩ := by
  cases fr with
  | missing => rfl
  | readError => rfl
  | unparseable => rfl
  | parsed j =>
    simp only [validCacheFile, Bool.and_eq_false_iff] at hinvalid
    simp only [loadAuthchainCache, CacheFileRead.isMissing, Bool.not_false]
    cases hv : j.getField "version" with
    | none => rfl
    | some v =>
      rw [hv] at hinvalid
      cases hvt : (v.truthy && v.isNumberType) with
      | false => simp [hvt]
      | true =>
        simp only [hvt, Bool.not_true, Bool.false_eq_true, if_false]
        cases he : j.getField "entries" with
        | none => rfl
        | some ent =>
          rw [he] at hinvalid
          cases het : (ent.truthy && ent.isObjectType) with
          | false => simp [het]
          | true =>
            simp only [het, Bool.not_true, Bool.false_eq_true, if_false]
            cases v with
            | num n =>
              rcases hinvalid with hn | hent
              · have : n ≠ 1 := by
                  intro h
                  subst h
                  simp at hn
                simp [this]
              · have hent2 : (ent.truthy && ent.isObjectType) = false := hent
                rw [het] at hent2
                exact absurd hent2 (by simp)
            | null => rfl
            | bool b => rfl
            | str s => rfl
            | arr xs => rfl
            | obj fs => rfl

/-- Witness for C9: the spec scenario - a cache file with unsupported
version 2 and empty entries loads as the empty cache with a warning. -/
theorem loadAuthchainCache_failsafe_witness :
    validCacheFile
        (CacheFileRead.parsed (JsonVal.obj
          [("version", JsonVal.num 2), ("entries", JsonVal.obj [])])) =
      false ∧
    loadAuthchainCache
        (CacheFileRead.parsed (JsonVal.obj
          [("version", JsonVal.num 2), ("entries", JsonVal.obj [])])) =
      ⟨1, JsonVal.obj [], true⟩ :=
  ⟨rfl,
    loadAuthchainCache_failsafe
      (CacheFileRead.parsed (JsonVal.obj
        [("version", JsonVal.num 2), ("entries", JsonVal.obj [])])) rfl⟩

/-- A resolved registry record (`BCMRRegistry` in `bcmr.ts`),
restricted to the fields relevant to the output list (the numeric height
parsed from the Chaingraph data, 0 when unconfirmed). -/
structure BCMRRegistry where
  authbase : String
  authhead : String
  tokenId : String
  blockHeight : Nat
  hash : String
  uris : List String
  isBurned : Bool
  isValid : Bool
  authchainLength : Nat
  isAuthheadUnspent : Bool
deriving DecidableEq

/-- The final sorting step of `getBCMRRegistries` (bcmr.ts lines 638-641):
`registries.sort((a, b) => b.blockHeight - a.blockHeight)`, a comparator
ordering by block height, newest first; the sorted array is returned. -/
def sortRegistries (registries : List BCMRRegistry) : List BCMRRegistry :=
  registries.mergeSort (fun a b => decide (b.blockHeight ≤ a.blockHeight))

/-- C10: for every candidate set, the registry list returned by
`getBCMRRegistries` is the input list sorted by `blockHeight` in
descending order (newest first): the output is pairwise non-increasing
in block height and is a permutation of the resolved records. -/
theorem sortRegistries_sorted (registries : List BCMRRegistry) :
    (sortRegistries registries).Pairwise
      (fun a b => b.blockHeight ≤ a.blockHeight) ∧
    (sortRegistries registries).Perm registries := by
  constructor
  · have h := @List.sorted_mergeSort BCMRRegistry
      (fun (a b : BCMRRegistry) => decide (b.blockHeight ≤ a.blockHeight))
      (fun a b c h1 h2 => by
        simp only [decide_eq_true_eq] at h1 h2 ⊢
        omega)
      (fun a b => by
        simp only [Bool.or_eq_true, decide_eq_true_eq]
        omega)
      registries
    refine h.imp ?_
    intro a b hab
    simpa using hab
  · exact List.mergeSort_perm registries _
